import Mathlib

/-
Verification development for the ticket-similarity retrieval engine of the
IT-Ticket-Resolution repository (backend/nlp_service.py).

The embedding below translates the Python source into Lean:
  - `_clean_text`            (nlp_service.py lines 44-57)
  - `_TicketVectorizer`      (lines 64-95): the deduplication step is modelled
    concretely (`drop_duplicates`); the fitted TF-IDF data produced by the
    external sklearn library is carried as plain fields of `TicketVectorizer`,
    and the external `cosine_similarity` call is a function parameter `cos`.
  - `get_top_similar_tickets` (lines 102-163): category boost/penalty loop,
    argsort-descending walk, threshold skip, top-k cut, 4-decimal rounding.

Python floats are idealized as rationals (`Rat`); Python ints as `Int`.
Strings are modelled at the character-list level over the ASCII range: the
regex `[^a-zA-Z\s]` strips every non-ASCII character anyway, so only the
ASCII fragment of `str.lower` is observable after the strip (exotic Unicode
one-off case mappings are outside the model).
-/

namespace NlpService

/-! Character-level primitives modelling Python `str.lower`, the regex strip
`re.sub(r"[^a-zA-Z\s]", "", text)` and `str.split()`. -/

/-- Model of Python `str.lower` on one character (ASCII range). -/
def lowerChar (c : Char) : Char :=
  if 65 ≤ c.toNat ∧ c.toNat ≤ 90 then Char.ofNat (c.toNat + 32) else c

/-- Model of Python `str.lower` applied characterwise. -/
def lowerChars (l : List Char) : List Char := l.map lowerChar

/-- Whitespace class of the regex `\s` and of `str.split()` (ASCII range). -/
def isWSChar (c : Char) : Bool :=
  c.toNat = 32 || c.toNat = 9 || c.toNat = 10 || c.toNat = 13 || c.toNat = 11 || c.toNat = 12

/-- ASCII letter class `[a-zA-Z]` of the strip regex. -/
def isAlphaChar (c : Char) : Bool :=
  (97 ≤ c.toNat && c.toNat ≤ 122) || (65 ≤ c.toNat && c.toNat ≤ 90)

/-- Lower-case ASCII letter predicate (used to state invariants). -/
def isLowerAlpha (c : Char) : Bool :=
  97 ≤ c.toNat && c.toNat ≤ 122

/-- Model of `re.sub(r"[^a-zA-Z\s]", "", text)`: keep letters and whitespace. -/
def stripChars (l : List Char) : List Char :=
  l.filter (fun c => isAlphaChar c || isWSChar c)

/-- Accumulator worker for `splitWS`; `cur` holds the current token reversed. -/
def splitWSGo : List Char → List Char → List (List Char)
  | [], cur => if cur.isEmpty then [] else [cur.reverse]
  | c :: rest, cur =>
    if isWSChar c then
      (if cur.isEmpty then splitWSGo rest [] else cur.reverse :: splitWSGo rest [])
    else splitWSGo rest (c :: cur)

/-- Model of Python `str.split()`: split on whitespace runs, discard empties. -/
def splitWS (l : List Char) : List (List Char) := splitWSGo l []

/-- Model of `" ".join(tokens)`. -/
def joinTokens : List (List Char) → List Char
  | [] => []
  | [t] => t
  | t :: t2 :: rest => t ++ ' ' :: joinTokens (t2 :: rest)

/-- The NLTK English stop-word list bound to `_stop_words` at import time
(`set(stopwords.words("english"))`, nlp_service.py line 28).  The data is
external library data; only membership is observable.  Apostrophes are
written as the escape `\x27`. -/
def _stop_words : List String :=
  ["i", "me", "my", "myself", "we", "our", "ours", "ourselves", "you",
   "you\x27re", "you\x27ve", "you\x27ll", "you\x27d", "your", "yours",
   "yourself", "yourselves", "he", "him", "his", "himself", "she",
   "she\x27s", "her", "hers", "herself", "it", "it\x27s", "its", "itself",
   "they", "them", "their", "theirs", "themselves", "what", "which", "who",
   "whom", "this", "that", "that\x27ll", "these", "those", "am", "is",
   "are", "was", "were", "be", "been", "being", "have", "has", "had",
   "having", "do", "does", "did", "doing", "a", "an", "the", "and", "but",
   "if", "or", "because", "as", "until", "while", "of", "at", "by", "for",
   "with", "about", "against", "between", "into", "through", "during",
   "before", "after", "above", "below", "to", "from", "up", "down", "in",
   "out", "on", "off", "over", "under", "again", "further", "then", "once",
   "here", "there", "when", "where", "why", "how", "all", "any", "both",
   "each", "few", "more", "most", "other", "some", "such", "no", "nor",
   "not", "only", "own", "same", "so", "than", "too", "very", "s", "t",
   "can", "will", "just", "don", "don\x27t", "should", "should\x27ve",
   "now", "d", "ll", "m", "o", "re", "ve", "y", "ain", "aren",
   "aren\x27t", "couldn", "couldn\x27t", "didn", "didn\x27t", "doesn",
   "doesn\x27t", "hadn", "hadn\x27t", "hasn", "hasn\x27t", "haven",
   "haven\x27t", "isn", "isn\x27t", "ma", "mightn", "mightn\x27t",
   "mustn", "mustn\x27t", "needn", "needn\x27t", "shan", "shan\x27t",
   "shouldn", "shouldn\x27t", "wasn", "wasn\x27t", "weren", "weren\x27t",
   "won", "won\x27t", "wouldn", "wouldn\x27t"]

/-- Model of `WordNetLemmatizer().lemmatize` (external NLTK/WordNet data,
default noun part of speech): a word found in WordNet is reduced to its
dictionary base form (the spec, section 4.2 step 5: plural becomes singular),
and a word with no base form is returned unchanged.  The table lists the
WordNet reductions for the words this development evaluates on; every other
word used here is its own base form. -/
def _lemmatize (w : List Char) : List Char :=
  if w = ("oxen").toList then ("ox").toList
  else if w = ("cans").toList then ("can").toList
  else w

/-- Token filter of the comprehension in `_clean_text` (line 55):
`word not in _stop_words and len(word) > 2`. -/
def keepToken (w : List Char) : Bool :=
  !(_stop_words.contains (String.mk w)) && decide (2 < w.length)

/-- Character-list core of `_clean_text` (lines 44-57): lowercase, strip
non-letters, split, filter stop-words and short tokens, lemmatize, rejoin. -/
def _clean_text_chars (l : List Char) : List Char :=
  joinTokens (((splitWS (stripChars (lowerChars l))).filter keepToken).map _lemmatize)

/-- Model of `_clean_text` (nlp_service.py lines 44-57). -/
def _clean_text (s : String) : String :=
  String.mk (_clean_text_chars s.toList)

/-! Data model: one CSV row / one historical ticket. -/

/-- A pandas cell as read from the CSV: a string value, or NaN for a missing
value.  `str()` of a NaN cell is the literal string "nan". -/
inductive Cell where
  | str (s : String)
  | nan
deriving DecidableEq, Inhabited

/-- Model of Python `str()` applied to a pandas cell. -/
def pandasStr : Cell → String
  | Cell.str s => s
  | Cell.nan => "nan"

/-- One row of the historical ticket dataset (columns of
enterprise_synthetic_tickets.csv used by nlp_service.py). -/
structure Doc where
  ticket_id : Int
  description : String
  category : Cell
  priority : Cell
  resolution : String
deriving DecidableEq, Inhabited

/-- Model of `str.lower` on strings. -/
def strLower (s : String) : String := String.mk (lowerChars s.toList)

/-! Corpus loading: `self.df = self.df.drop_duplicates(subset=["description"])`
(nlp_service.py line 74).  pandas `drop_duplicates` is an external library
call; it keeps the first row for each description value and preserves the
order of the surviving rows. -/

/-- Worker for `drop_duplicates`: `seen` is the set of description strings
already kept. -/
def dropDupGo (seen : List String) : List Doc → List Doc
  | [] => []
  | r :: rest =>
    if r.description ∈ seen then dropDupGo seen rest
    else r :: dropDupGo (r.description :: seen) rest

/-- Model of `df.drop_duplicates(subset=["description"])` followed by
`reset_index(drop=True)` (line 74): first occurrence wins, order preserved. -/
def drop_duplicates (rows : List Doc) : List Doc := dropDupGo [] rows

/-! The fitted vectorizer.  `TfidfVectorizer(ngram_range=(1,2), max_df=0.95,
min_df=1)` is fitted by the external sklearn library at import time
(lines 80-86); the structure below carries its outputs: the deduplicated
dataframe, the fitted vocabulary with its idf weights, and the per-document
TF-IDF row vectors. -/

structure TicketVectorizer where
  df : List Doc
  vocab : List String
  idf : List Rat
  tfidf_matrix : List (List Rat)

/-- Bigram terms of a token list (sklearn analyzer with ngram_range (1,2)):
consecutive pairs joined by one space. -/
def bigrams : List String → List String
  | a :: b :: rest => (a ++ " " ++ b) :: bigrams (b :: rest)
  | _ => []

/-- Terms the sklearn analyzer extracts from a raw query: clean the text
(`transform_query`, line 90), tokenize with the default token pattern (word
runs of length at least 2), and take unigrams and bigrams. -/
def termsOf (q : String) : List String :=
  let ws := ((splitWS ((_clean_text q).toList)).map String.mk).filter (fun w => decide (2 ≤ w.length))
  ws ++ bigrams ws

/-- Model of `transform_query` (lines 88-91): the cleaned query projected
into the fitted vocabulary, one coordinate per vocabulary term, weighted by
term count times idf.  The l2 normalization sklearn applies is part of the
cosine-similarity parameter `cos` (cosine is scale invariant). -/
def transform_query (vz : TicketVectorizer) (q : String) : List Rat :=
  (vz.vocab.zip vz.idf).map (fun p => ((termsOf q).count p.1 : Rat) * p.2)

/-! The query function `get_top_similar_tickets` (lines 102-163). -/

/-- Boost condition of line 135: `if category and category in query_lower`
where `category = str(row.get("category", "")).lower()` (line 134). -/
def catMatches (query_lower : String) (cat : Cell) : Bool :=
  !(strLower (pandasStr cat) == "") &&
    decide ((strLower (pandasStr cat)).toList <:+: query_lower.toList)

/-- Score adjustment of lines 133-138 for one document: boost by 1.25 capped
at 1.0 on a category match, otherwise multiply by 0.90. -/
def adjustOne (query_lower : String) (cat : Cell) (s : Rat) : Rat :=
  if catMatches query_lower cat then min (s * (5/4)) 1 else s * (9/10)

/-- The `for idx, row in df.iterrows()` loop of lines 133-138: adjust the
similarity of every document in index order. -/
def adjustAll (df : List Doc) (sims : List Rat) (query_lower : String) : List Rat :=
  List.zipWith (fun d s => adjustOne query_lower d.category s) df sims

/-- Ascending insertion by similarity value (indices into `sims`). -/
def insertAsc (sims : List Rat) (i : Nat) : List Nat → List Nat
  | [] => [i]
  | j :: rest =>
    if sims.getD i 0 < sims.getD j 0 then i :: j :: rest
    else j :: insertAsc sims i rest

/-- Ascending argsort of `sims` (numpy `argsort`; the tie order of numpy
argsort is unspecified, and no claim depends on it). -/
def argsortAsc (sims : List Rat) : List Nat :=
  (List.range sims.length).foldr (insertAsc sims) []

/-- Model of `similarities.argsort()[::-1]` (line 141): descending index
order. -/
def sortedIdx (sims : List Rat) : List Nat := (argsortAsc sims).reverse

/-- One returned suggestion (the dict appended at lines 149-158). -/
structure SuggestionResult where
  ticket_id : Int
  description : String
  category : String
  priority : String
  resolution : String
  similarity_score : Rat
deriving DecidableEq, Inhabited

/-- Model of Python `round(x, 4)` scaled by 10^4: round half to even. -/
def pyRoundInt (x : Rat) : Int :=
  if x - ⌊x⌋ < 1/2 then ⌊x⌋
  else if 1/2 < x - ⌊x⌋ then ⌊x⌋ + 1
  else if ⌊x⌋ % 2 = 0 then ⌊x⌋ else ⌊x⌋ + 1

/-- Model of `round(float(similarities[idx]), 4)` (line 156). -/
def round4 (x : Rat) : Rat := ((pyRoundInt (x * 10000) : Int) : Rat) / 10000

/-- The dict built from `row = df.iloc[idx]` at lines 148-158. -/
def buildResult (df : List Doc) (sims : List Rat) (i : Nat) : SuggestionResult :=
  let row := df.getD i default
  { ticket_id := row.ticket_id
    description := row.description
    category := pandasStr row.category
    priority := pandasStr row.priority
    resolution := row.resolution
    similarity_score := round4 (sims.getD i 0) }

/-- The collection loop of lines 143-162: walk the sorted indices, `continue`
past entries below the threshold, append otherwise, and `break` as soon as
`len(results) == top_k`. -/
def collectLoop (df : List Doc) (sims : List Rat) (threshold : Rat) (top_k : Int) :
    List Nat → List SuggestionResult → List SuggestionResult
  | [], acc => acc
  | i :: rest, acc =>
    if sims.getD i 0 < threshold then collectLoop df sims threshold top_k rest acc
    else
      let acc2 := acc ++ [buildResult df sims i]
      if (acc2.length : Int) = top_k then acc2
      else collectLoop df sims threshold top_k rest acc2

/-- The adjusted similarity vector a query produces: raw cosine similarities
of the query vector against every matrix row (line 124; `cos` is the external
`cosine_similarity`), then the category adjustment of lines 129-138 using the
lowercased raw description (line 130). -/
def adjustedSims (vz : TicketVectorizer) (cos : List Rat → List Rat → Rat)
    (description : String) : List Rat :=
  adjustAll vz.df
    (vz.tfidf_matrix.map (fun row => cos (transform_query vz description) row))
    (strLower description)

/-- Model of `get_top_similar_tickets` (lines 102-163).  The Python defaults
are `top_k = 3` and `threshold = 0.10`. -/
def get_top_similar_tickets (vz : TicketVectorizer) (cos : List Rat → List Rat → Rat)
    (description : String) (top_k : Int) (threshold : Rat) : List SuggestionResult :=
  collectLoop vz.df (adjustedSims vz cos description) threshold top_k
    (sortedIdx (adjustedSims vz cos description)) []

/-- State-passing form of the query: the module-level vectorizer singleton is
threaded through explicitly.  The body of `get_top_similar_tickets` only
reads `_vectorizer` (lines 122, 126, 131); it never assigns to it, so the
state component is returned unchanged. -/
def get_top_similar_tickets_st (vz : TicketVectorizer)
    (cos : List Rat → List Rat → Rat) (description : String) (top_k : Int)
    (threshold : Rat) : List SuggestionResult × TicketVectorizer :=
  (get_top_similar_tickets vz cos description top_k threshold, vz)

end NlpService

namespace NlpService

/-! Helper lemmas about the collection loop of lines 143-162. -/

/-- Predicate: index `i` carries an adjusted score that clears `threshold`. -/
def aboveT (sims : List Rat) (threshold : Rat) (i : Nat) : Bool :=
  !(decide (sims.getD i 0 < threshold))

theorem collectLoop_nil (df : List Doc) (sims : List Rat) (t : Rat) (k : Int)
    (acc : List SuggestionResult) : collectLoop df sims t k [] acc = acc := rfl

theorem collectLoop_cons (df : List Doc) (sims : List Rat) (t : Rat) (k : Int)
    (i : Nat) (rest : List Nat) (acc : List SuggestionResult) :
    collectLoop df sims t k (i :: rest) acc =
      if sims.getD i 0 < t then collectLoop df sims t k rest acc
      else
        if ((acc ++ [buildResult df sims i]).length : Int) = k then acc ++ [buildResult df sims i]
        else collectLoop df sims t k rest (acc ++ [buildResult df sims i]) := rfl

theorem countP_aboveT_cons_pos (sims : List Rat) (t : Rat) (i : Nat) (rest : List Nat)
    (hlt : ¬ (sims.getD i 0 < t)) :
    List.countP (aboveT sims t) (i :: rest) = List.countP (aboveT sims t) rest + 1 := by
  rw [List.countP_cons]
  have : aboveT sims t i = true := by
    simp only [aboveT, decide_eq_false hlt, Bool.not_false]
  rw [this]
  simp

theorem countP_aboveT_cons_neg (sims : List Rat) (t : Rat) (i : Nat) (rest : List Nat)
    (hlt : sims.getD i 0 < t) :
    List.countP (aboveT sims t) (i :: rest) = List.countP (aboveT sims t) rest := by
  rw [List.countP_cons]
  have : aboveT sims t i = false := by
    simp only [aboveT, decide_eq_true hlt, Bool.not_true]
  rw [this]
  simp

theorem collectLoop_length_nonpos (df : List Doc) (sims : List Rat) (t : Rat)
    (k : Int) (hk : k ≤ 0) :
    ∀ (L : List Nat) (acc : List SuggestionResult),
      (collectLoop df sims t k L acc).length = acc.length + L.countP (aboveT sims t) := by
  intro L
  induction L with
  | nil => intro acc; rw [collectLoop_nil]; simp
  | cons i rest ih =>
    intro acc
    rw [collectLoop_cons]
    by_cases hlt : sims.getD i 0 < t
    · rw [if_pos hlt, ih, countP_aboveT_cons_neg sims t i rest hlt]
    · have hne : ¬ (((acc ++ [buildResult df sims i]).length : Int) = k) := by
        have h1 : 0 < (acc ++ [buildResult df sims i]).length := by simp
        omega
      rw [if_neg hlt, if_neg hne, ih, countP_aboveT_cons_pos sims t i rest hlt]
      simp
      omega

theorem collectLoop_length_pos (df : List Doc) (sims : List Rat) (t : Rat)
    (k : Int) (hk : 1 ≤ k) :
    ∀ (L : List Nat) (acc : List SuggestionResult), acc.length < k.toNat →
      (collectLoop df sims t k L acc).length =
        min k.toNat (acc.length + L.countP (aboveT sims t)) := by
  intro L
  induction L with
  | nil =>
    intro acc hacc
    rw [collectLoop_nil]
    simp
    omega
  | cons i rest ih =>
    intro acc hacc
    rw [collectLoop_cons]
    by_cases hlt : sims.getD i 0 < t
    · rw [if_pos hlt, ih acc hacc, countP_aboveT_cons_neg sims t i rest hlt]
    · rw [if_neg hlt]
      have hlen : (acc ++ [buildResult df sims i]).length = acc.length + 1 := by simp
      by_cases heq : (((acc ++ [buildResult df sims i]).length : Int) = k)
      · rw [if_pos heq, countP_aboveT_cons_pos sims t i rest hlt, hlen]
        have h1 : acc.length + 1 = k.toNat := by omega
        omega
      · rw [if_neg heq]
        have hlt2 : (acc ++ [buildResult df sims i]).length < k.toNat := by omega
        rw [ih _ hlt2, countP_aboveT_cons_pos sims t i rest hlt, hlen]
        omega

theorem collectLoop_mem (df : List Doc) (sims : List Rat) (t : Rat) (k : Int) :
    ∀ (L : List Nat) (acc : List SuggestionResult) (r : SuggestionResult),
      r ∈ collectLoop df sims t k L acc →
      r ∈ acc ∨ ∃ i, ¬ (sims.getD i 0 < t) ∧ r = buildResult df sims i := by
  intro L
  induction L with
  | nil =>
    intro acc r hr
    rw [collectLoop_nil] at hr
    exact Or.inl hr
  | cons i rest ih =>
    intro acc r hr
    rw [collectLoop_cons] at hr
    by_cases hlt : sims.getD i 0 < t
    · rw [if_pos hlt] at hr
      exact ih acc r hr
    · rw [if_neg hlt] at hr
      by_cases heq : (((acc ++ [buildResult df sims i]).length : Int) = k)
      · rw [if_pos heq] at hr
        rcases List.mem_append.mp hr with h | h
        · exact Or.inl h
        · exact Or.inr ⟨i, hlt, by simpa using h⟩
      · rw [if_neg heq] at hr
        rcases ih _ r hr with h | h
        · rcases List.mem_append.mp h with h2 | h2
          · exact Or.inl h2
          · exact Or.inr ⟨i, hlt, by simpa using h2⟩
        · exact Or.inr h

theorem collectLoop_all_below (df : List Doc) (sims : List Rat) (t : Rat) (k : Int) :
    ∀ (L : List Nat) (acc : List SuggestionResult),
      (∀ i ∈ L, sims.getD i 0 < t) →
      collectLoop df sims t k L acc = acc := by
  intro L
  induction L with
  | nil => intro acc _; rw [collectLoop_nil]
  | cons i rest ih =>
    intro acc h
    rw [collectLoop_cons, if_pos (h i (by simp))]
    exact ih acc (fun j hj => h j (by simp [hj]))

end NlpService

namespace NlpService

/-! Helper lemmas about the score adjustment of lines 129-138. -/

theorem adjustOne_zero (ql : String) (cat : Cell) : adjustOne ql cat 0 = 0 := by
  unfold adjustOne
  by_cases h : catMatches ql cat = true
  · rw [if_pos h]
    norm_num
  · rw [if_neg h]
    norm_num

theorem adjustOne_nonneg (ql : String) (cat : Cell) (s : Rat) (h0 : 0 ≤ s) :
    0 ≤ adjustOne ql cat s := by
  unfold adjustOne
  by_cases h : catMatches ql cat = true
  · rw [if_pos h]
    apply le_min
    · positivity
    · norm_num
  · rw [if_neg h]
    positivity

theorem adjustOne_le_one (ql : String) (cat : Cell) (s : Rat) (_h0 : 0 ≤ s) (h1 : s ≤ 1) :
    adjustOne ql cat s ≤ 1 := by
  unfold adjustOne
  by_cases h : catMatches ql cat = true
  · rw [if_pos h]
    exact min_le_right _ _
  · rw [if_neg h]
    nlinarith

theorem adjustAll_getD (ql : String) :
    ∀ (df : List Doc) (sims : List Rat) (i : Nat),
      (adjustAll df sims ql).getD i 0 =
        if i < df.length ∧ i < sims.length
        then adjustOne ql ((df.getD i default).category) (sims.getD i 0)
        else 0 := by
  intro df
  induction df with
  | nil =>
    intro sims i
    simp [adjustAll]
  | cons d ds ih =>
    intro sims i
    cases sims with
    | nil => simp [adjustAll]
    | cons s ss =>
      cases i with
      | zero => simp [adjustAll, List.getD]
      | succ j =>
        have h1 : (adjustAll (d :: ds) (s :: ss) ql).getD (j + 1) 0 =
            (adjustAll ds ss ql).getD j 0 := by
          simp [adjustAll, List.getD]
        rw [h1, ih ss j]
        by_cases h2 : j < ds.length ∧ j < ss.length
        · rw [if_pos h2, if_pos (by simp; omega)]
          simp [List.getD]
        · rw [if_neg h2, if_neg (by simp; omega)]

/-- An element of a list with all-zero members reads back zero. -/
theorem getD_zero_of_all (l : List Rat) (h : ∀ x ∈ l, x = 0) (i : Nat) :
    l.getD i 0 = 0 := by
  by_cases hi : i < l.length
  · have hmem : l.getD i 0 ∈ l := by
      rw [List.getD_eq_getElem l 0 hi]
      exact l.getElem_mem hi
    exact h _ hmem
  · rw [List.getD_eq_default]
    omega

/-- Reading a mapped cosine row inside bounds gives the cosine value. -/
theorem map_cos_getD (cos : List Rat → List Rat → Rat) (qv : List Rat) :
    ∀ (m : List (List Rat)) (i : Nat), i < m.length →
      (m.map (fun row => cos qv row)).getD i 0 = cos qv (m.getD i []) := by
  intro m
  induction m with
  | nil => intro i hi; simp at hi
  | cons r rs ih =>
    intro i hi
    cases i with
    | zero => simp [List.getD]
    | succ j =>
      have hj : j < rs.length := by simp at hi; omega
      simp only [List.map_cons, List.getD, List.getElem?_cons_succ]
      have h1 := ih j hj
      simp only [List.getD] at h1
      exact h1

/-! Helper lemmas about `round4` (Python `round(x, 4)`). -/

theorem pyRoundInt_nonneg (x : Rat) (h0 : 0 ≤ x) : 0 ≤ pyRoundInt x := by
  unfold pyRoundInt
  have hf : (0:Int) ≤ ⌊x⌋ := Int.floor_nonneg.mpr h0
  split
  · exact hf
  · split
    · omega
    · split
      · exact hf
      · omega

theorem pyRoundInt_le (x : Rat) (b : Int) (hb : x ≤ (b : Rat)) : pyRoundInt x ≤ b := by
  unfold pyRoundInt
  have hf : ⌊x⌋ ≤ b := by
    have h1 : ⌊x⌋ ≤ ⌊(b : Rat)⌋ := Int.floor_le_floor hb
    simpa using h1
  split
  · exact hf
  · have hr : ¬ (x - ⌊x⌋ < 1/2) := by assumption
    have hx2 : (⌊x⌋ : Rat) ≤ x - 1/2 := by
      push_neg at hr
      linarith
    have hflt : ⌊x⌋ < b := by
      by_contra hcon
      push_neg at hcon
      have h3 : (b : Rat) ≤ (⌊x⌋ : Rat) := by exact_mod_cast hcon
      linarith
    split
    · omega
    · split
      · omega
      · omega

theorem round4_nonneg (x : Rat) (h0 : 0 ≤ x) : 0 ≤ round4 x := by
  unfold round4
  apply div_nonneg
  · exact_mod_cast pyRoundInt_nonneg _ (by positivity)
  · norm_num

theorem round4_le_one (x : Rat) (h1 : x ≤ 1) : round4 x ≤ 1 := by
  unfold round4
  rw [div_le_one (by norm_num : (0:Rat) < 10000)]
  have h2 : pyRoundInt (x * 10000) ≤ 10000 := by
    apply pyRoundInt_le
    push_cast
    nlinarith
  exact_mod_cast h2

end NlpService

namespace NlpService

/-! Helper lemmas about `drop_duplicates` (line 74). -/

theorem dropDupGo_sublist : ∀ (rows : List Doc) (seen : List String),
    (dropDupGo seen rows).Sublist rows := by
  intro rows
  induction rows with
  | nil => intro seen; simp [dropDupGo]
  | cons r rest ih =>
    intro seen
    rw [dropDupGo]
    by_cases h : r.description ∈ seen
    · rw [if_pos h]
      exact (ih seen).cons r
    · rw [if_neg h]
      exact (ih (r.description :: seen)).cons₂ r

theorem dropDupGo_not_seen : ∀ (rows : List Doc) (seen : List String) (r : Doc),
    r ∈ dropDupGo seen rows → r.description ∉ seen := by
  intro rows
  induction rows with
  | nil => intro seen r hr; simp [dropDupGo] at hr
  | cons q rest ih =>
    intro seen r hr
    rw [dropDupGo] at hr
    by_cases h : q.description ∈ seen
    · rw [if_pos h] at hr
      exact ih seen r hr
    · rw [if_neg h] at hr
      rcases List.mem_cons.mp hr with h2 | h2
      · rw [h2]; exact h
      · intro hcon
        exact ih _ r h2 (by simp [hcon])

theorem dropDupGo_pairwise : ∀ (rows : List Doc) (seen : List String),
    List.Pairwise (fun a b => a.description ≠ b.description) (dropDupGo seen rows) := by
  intro rows
  induction rows with
  | nil => intro seen; simp [dropDupGo]
  | cons r rest ih =>
    intro seen
    rw [dropDupGo]
    by_cases h : r.description ∈ seen
    · rw [if_pos h]
      exact ih seen
    · rw [if_neg h]
      rw [List.pairwise_cons]
      constructor
      · intro b hb
        have h2 := dropDupGo_not_seen rest (r.description :: seen) b hb
        intro hcon
        exact h2 (by simp [hcon])
      · exact ih _

theorem dropDupGo_countP_zero : ∀ (rows : List Doc) (seen : List String) (d : String),
    d ∈ seen → (dropDupGo seen rows).countP (fun r => r.description == d) = 0 := by
  intro rows seen d hd
  rw [List.countP_eq_zero]
  intro r hr
  have h2 := dropDupGo_not_seen rows seen r hr
  simp only [beq_iff_eq]
  intro hcon
  exact h2 (hcon ▸ hd)

theorem find?_cons_true (p : Doc → Bool) (a : Doc) (l : List Doc) (h : p a = true) :
    List.find? p (a :: l) = some a := List.find?_cons_of_pos _ h

theorem find?_cons_false (p : Doc → Bool) (a : Doc) (l : List Doc) (h : p a = false) :
    List.find? p (a :: l) = List.find? p l := by
  apply List.find?_cons_of_neg
  simp [h]

theorem dropDupGo_countP_one : ∀ (rows : List Doc) (seen : List String) (d : String),
    d ∉ seen → (∃ r ∈ rows, r.description = d) →
    (dropDupGo seen rows).countP (fun r => r.description == d) = 1 := by
  intro rows
  induction rows with
  | nil => intro seen d _ hex; simp at hex
  | cons q rest ih =>
    intro seen d hd hex
    rw [dropDupGo]
    by_cases h : q.description ∈ seen
    · rw [if_pos h]
      have hqd : q.description ≠ d := fun hcon => hd (hcon ▸ h)
      apply ih seen d hd
      rcases hex with ⟨r, hr, hrd⟩
      rcases List.mem_cons.mp hr with h2 | h2
      · exact absurd (h2 ▸ hrd) hqd
      · exact ⟨r, h2, hrd⟩
    · rw [if_neg h]
      by_cases hqd : q.description = d
      · rw [List.countP_cons]
        have hb : (q.description == d) = true := by simp [hqd]
        rw [hb]
        have h0 : (dropDupGo (q.description :: seen) rest).countP
            (fun r => r.description == d) = 0 :=
          dropDupGo_countP_zero rest _ d (by simp [hqd])
        rw [h0]
        simp
      · rw [List.countP_cons]
        have hb : (q.description == d) = false := by simp [hqd]
        rw [hb]
        have hex2 : ∃ r ∈ rest, r.description = d := by
          rcases hex with ⟨r, hr, hrd⟩
          rcases List.mem_cons.mp hr with h2 | h2
          · exact absurd (h2 ▸ hrd) hqd
          · exact ⟨r, h2, hrd⟩
        have hd2 : d ∉ q.description :: seen := by
          intro hcon
          rcases List.mem_cons.mp hcon with h2 | h2
          · exact hqd h2.symm
          · exact hd h2
        have h1 := ih (q.description :: seen) d hd2 hex2
        rw [h1]
        simp

theorem dropDupGo_find? : ∀ (rows : List Doc) (seen : List String) (d : String),
    d ∉ seen →
    (dropDupGo seen rows).find? (fun r => r.description == d) =
      rows.find? (fun r => r.description == d) := by
  intro rows
  induction rows with
  | nil => intro seen d _; simp [dropDupGo]
  | cons q rest ih =>
    intro seen d hd
    rw [dropDupGo]
    by_cases h : q.description ∈ seen
    · rw [if_pos h]
      have hqd : (q.description == d) = false := by
        simp only [beq_eq_false_iff_ne, ne_eq]
        intro hcon
        exact hd (hcon ▸ h)
      rw [find?_cons_false (fun r => r.description == d) q rest hqd]
      exact ih seen d hd
    · rw [if_neg h]
      by_cases hqd : q.description = d
      · have hb : (q.description == d) = true := by simp [hqd]
        rw [find?_cons_true (fun r => r.description == d) q
              (dropDupGo (q.description :: seen) rest) hb,
            find?_cons_true (fun r => r.description == d) q rest hb]
      · have hb : (q.description == d) = false := by simp [hqd]
        rw [find?_cons_false (fun r => r.description == d) q
              (dropDupGo (q.description :: seen) rest) hb,
            find?_cons_false (fun r => r.description == d) q rest hb]
        have hd2 : d ∉ q.description :: seen := by
          intro hcon
          rcases List.mem_cons.mp hcon with h2 | h2
          · exact hqd h2.symm
          · exact hd h2
        exact ih (q.description :: seen) d hd2

end NlpService

namespace NlpService

/-! Helper lemmas about the text pipeline, towards idempotence analysis. -/

theorem splitWSGo_nil (cur : List Char) :
    splitWSGo [] cur = if cur.isEmpty then [] else [cur.reverse] := rfl

theorem splitWSGo_cons (c : Char) (rest cur : List Char) :
    splitWSGo (c :: rest) cur =
      if isWSChar c then
        (if cur.isEmpty then splitWSGo rest [] else cur.reverse :: splitWSGo rest [])
      else splitWSGo rest (c :: cur) := rfl

theorem map_self_of {α : Type} (f : α → α) :
    ∀ (l : List α), (∀ a ∈ l, f a = a) → l.map f = l := by
  intro l
  induction l with
  | nil => intro _; rfl
  | cons a rest ih =>
    intro h
    simp only [List.map_cons]
    rw [h a (by simp), ih (fun b hb => h b (by simp [hb]))]

theorem joinTokens_mem : ∀ (ts : List (List Char)) (c : Char),
    c ∈ joinTokens ts → c = ' ' ∨ ∃ w ∈ ts, c ∈ w := by
  intro ts
  induction ts with
  | nil => intro c hc; simp [joinTokens] at hc
  | cons t rest ih =>
    intro c hc
    cases rest with
    | nil =>
      simp only [joinTokens] at hc
      exact Or.inr ⟨t, by simp, hc⟩
    | cons t2 rest2 =>
      simp only [joinTokens] at hc
      rcases List.mem_append.mp hc with h | h
      · exact Or.inr ⟨t, by simp, h⟩
      · rcases List.mem_cons.mp h with h2 | h2
        · exact Or.inl h2
        · rcases ih c h2 with h3 | ⟨w, hw, hcw⟩
          · exact Or.inl h3
          · exact Or.inr ⟨w, by simp [hw], hcw⟩

theorem splitWSGo_token_ws : ∀ (t cur l : List Char),
    (∀ c ∈ t, isWSChar c = false) →
    splitWSGo (t ++ ' ' :: l) cur =
      if (cur.reverse ++ t).isEmpty then splitWSGo l []
      else (cur.reverse ++ t) :: splitWSGo l [] := by
  intro t
  induction t with
  | nil =>
    intro cur l _
    simp only [List.nil_append, List.append_nil]
    rw [splitWSGo_cons]
    have hws : isWSChar ' ' = true := by decide
    rw [if_pos hws]
    by_cases hc : cur = []
    · subst hc; simp
    · rw [if_neg (by simp [hc]), if_neg (by simp [hc])]
  | cons c t2 ih =>
    intro cur l h
    have hcws : isWSChar c = false := h c (by simp)
    simp only [List.cons_append]
    rw [splitWSGo_cons, if_neg (by simp [hcws])]
    rw [ih (c :: cur) l (fun a ha => h a (by simp [ha]))]
    have he1 : ((c :: cur).reverse ++ t2).isEmpty = false := by simp
    have he2 : (cur.reverse ++ c :: t2).isEmpty = false := by simp
    rw [he1, he2]
    simp

theorem splitWSGo_token_end : ∀ (t cur : List Char),
    (∀ c ∈ t, isWSChar c = false) →
    splitWSGo t cur =
      if (cur.reverse ++ t).isEmpty then [] else [cur.reverse ++ t] := by
  intro t
  induction t with
  | nil =>
    intro cur _
    rw [splitWSGo_nil]
    by_cases hc : cur = []
    · subst hc; simp
    · rw [if_neg (by simp [hc]), if_neg (by simp [hc])]
      simp
  | cons c t2 ih =>
    intro cur h
    have hcws : isWSChar c = false := h c (by simp)
    rw [splitWSGo_cons, if_neg (by simp [hcws])]
    rw [ih (c :: cur) (fun a ha => h a (by simp [ha]))]
    have he1 : ((c :: cur).reverse ++ t2).isEmpty = false := by simp
    have he2 : (cur.reverse ++ c :: t2).isEmpty = false := by simp
    rw [he1, he2]
    simp

theorem splitWS_joinTokens : ∀ (ts : List (List Char)),
    (∀ w ∈ ts, w ≠ [] ∧ ∀ c ∈ w, isWSChar c = false) →
    splitWS (joinTokens ts) = ts := by
  intro ts
  induction ts with
  | nil => intro _; rfl
  | cons t rest ih =>
    intro h
    cases rest with
    | nil =>
      show splitWSGo (joinTokens [t]) [] = [t]
      simp only [joinTokens]
      rw [splitWSGo_token_end t [] (h t (by simp)).2]
      have hne : (([] : List Char).reverse ++ t).isEmpty = false := by
        simp [(h t (by simp)).1]
      rw [hne]
      simp
    | cons t2 rest2 =>
      show splitWSGo (joinTokens (t :: t2 :: rest2)) [] = t :: t2 :: rest2
      simp only [joinTokens]
      rw [splitWSGo_token_ws t [] (joinTokens (t2 :: rest2)) (h t (by simp)).2]
      have hne : (([] : List Char).reverse ++ t).isEmpty = false := by
        simp [(h t (by simp)).1]
      rw [hne]
      simp only [List.reverse_nil, List.nil_append]
      have h2 := ih (fun w hw => h w (by simp [hw]))
      rw [show splitWSGo (joinTokens (t2 :: rest2)) [] = splitWS (joinTokens (t2 :: rest2)) from rfl, h2]
      simp

theorem lowerChar_of_lower (c : Char) (h : isLowerAlpha c = true) : lowerChar c = c := by
  have h2 : ¬ (65 ≤ c.toNat ∧ c.toNat ≤ 90) := by
    simp only [isLowerAlpha, Bool.and_eq_true, decide_eq_true_eq] at h
    omega
  unfold lowerChar
  rw [if_neg h2]

theorem lowerChar_space : lowerChar ' ' = ' ' := by decide

theorem isAlpha_of_lower (c : Char) (h : isLowerAlpha c = true) : isAlphaChar c = true := by
  simp only [isLowerAlpha, Bool.and_eq_true, decide_eq_true_eq] at h
  simp only [isAlphaChar, Bool.or_eq_true, Bool.and_eq_true, decide_eq_true_eq]
  omega

theorem not_ws_of_lower (c : Char) (h : isLowerAlpha c = true) : isWSChar c = false := by
  simp only [isLowerAlpha, Bool.and_eq_true, decide_eq_true_eq] at h
  simp only [isWSChar, Bool.or_eq_false_iff, decide_eq_false_iff_not]
  omega

/-- The token list of the normalized form of `s`: the lemmatized surviving
tokens whose space-joined concatenation is `_clean_text s`. -/
def cleanedTokens (s : String) : List (List Char) :=
  ((splitWS (stripChars (lowerChars s.toList))).filter keepToken).map _lemmatize

end NlpService

namespace NlpService

/-! Concrete fixtures used by counterexamples and witnesses. -/

/-- A historical ticket with category "VPN" (section 8 of the spec). -/
def doc1 : Doc :=
  { ticket_id := 1, description := "VPN connection fails after password reset",
    category := Cell.str ("VPN"), priority := Cell.str ("High"),
    resolution := "Reset VPN credentials" }

/-- A historical ticket with category "Printer" (section 8 of the spec). -/
def doc2 : Doc :=
  { ticket_id := 2, description := "Printer not responding on network",
    category := Cell.str ("Printer"), priority := Cell.str ("Low"),
    resolution := "Restart print spooler" }

/-- A two-document fitted state over the vocabulary ["vpn"]. -/
def vzDemo : TicketVectorizer :=
  { df := [doc1, doc2], vocab := ["vpn"], idf := [1], tfidf_matrix := [[1], [1]] }

/-- A cosine stand-in scoring every document 1 (raw cosine of identical
normalized vectors). -/
def cosOne : List Rat → List Rat → Rat := fun _ _ => 1

/-- A cosine stand-in scoring every document 0. -/
def cosZero : List Rat → List Rat → Rat := fun _ _ => 0

/-- C1, amended: with `top_k = 0` the bound `len(result) <= top_k` of the
claim fails, because the loop checks `len(results) == top_k` only after an
append, so with `top_k = 0` it never breaks: on a two-document index where
both adjusted scores clear the default threshold, the query with `top_k = 0`
returns 2 results, not at most 0. -/
theorem c1_topk_zero_counterexample :
    ¬ ((get_top_similar_tickets vzDemo cosOne ("vpn") 0 (1/10)).length ≤ 0) := by
  have h1 : catMatches (strLower ("vpn")) (Cell.str ("VPN")) = true := by decide
  have h2 : catMatches (strLower ("vpn")) (Cell.str ("Printer")) = false := by decide
  have hlen : (get_top_similar_tickets vzDemo cosOne ("vpn") 0 (1/10)).length = 2 := by
    norm_num [get_top_similar_tickets, adjustedSims, vzDemo, cosOne, adjustAll, adjustOne,
      h1, h2, doc1, doc2, sortedIdx, argsortAsc, insertAsc, collectLoop, buildResult, min_def,
      List.range_succ, List.getD_cons_zero, List.getD_cons_succ]
  omega

/-- C1, amended claim: for every fitted state, cosine function, query string
and threshold, and every `top_k >= 1`, the returned list has length at most
`top_k`; every collected entry stems from an index whose adjusted score is
not strictly below the threshold (entries below the threshold are skipped),
and collection stops once `top_k` results are collected or the candidate
list is exhausted.  (For `top_k = 0` the bound fails, see the
counterexample: the equality stop-check never fires.) -/
theorem c1_topk_bound_amended (vz : TicketVectorizer) (cos : List Rat → List Rat → Rat)
    (description : String) (threshold : Rat) (top_k : Int) (hk : 1 ≤ top_k) :
    (get_top_similar_tickets vz cos description top_k threshold).length ≤ top_k.toNat ∧
    ∀ r ∈ get_top_similar_tickets vz cos description top_k threshold,
      ∃ i, ¬ ((adjustedSims vz cos description).getD i 0 < threshold) ∧
        r = buildResult vz.df (adjustedSims vz cos description) i := by
  constructor
  · unfold get_top_similar_tickets
    rw [collectLoop_length_pos _ _ _ _ hk _ _ (by simp; omega)]
    exact Nat.min_le_left _ _
  · intro r hr
    unfold get_top_similar_tickets at hr
    rcases collectLoop_mem _ _ _ _ _ _ _ hr with h | h
    · simp at h
    · exact h

/-- C1, witness: the amended bound at the concrete two-document state with
`top_k = 2` and the default threshold. -/
theorem c1_witness :
    1 ≤ (2:Int) ∧
    ((get_top_similar_tickets vzDemo cosOne ("vpn") 2 (1/10)).length ≤ (2:Int).toNat ∧
     ∀ r ∈ get_top_similar_tickets vzDemo cosOne ("vpn") 2 (1/10),
       ∃ i, ¬ ((adjustedSims vzDemo cosOne ("vpn")).getD i 0 < (1/10:Rat)) ∧
         r = buildResult vzDemo.df (adjustedSims vzDemo cosOne ("vpn")) i) :=
  ⟨by decide, c1_topk_bound_amended vzDemo cosOne ("vpn") (1/10) 2 (by decide)⟩

/-- C2: the code performs no validation or clamping of `top_k` or
`threshold`.  With `top_k = -1` (malformed, negative) the stop-check
`len(results) == top_k` can never fire and every above-threshold entry is
silently returned (2 results on the two-document state); with
`threshold = 1.5` (outside [0, 1]) the out-of-range value is used as-is and
silently yields an empty list.  Neither call is rejected; this contradicts
the specified defensive enforcement. -/
theorem c2_no_validation_eval :
    (get_top_similar_tickets vzDemo cosOne ("vpn") (-1) (1/10)).length = 2 ∧
    get_top_similar_tickets vzDemo cosOne ("vpn") 3 (3/2) = [] := by
  have h1 : catMatches (strLower ("vpn")) (Cell.str ("VPN")) = true := by decide
  have h2 : catMatches (strLower ("vpn")) (Cell.str ("Printer")) = false := by decide
  constructor
  · norm_num [get_top_similar_tickets, adjustedSims, vzDemo, cosOne, adjustAll, adjustOne,
      h1, h2, doc1, doc2, sortedIdx, argsortAsc, insertAsc, collectLoop, buildResult, min_def,
      List.range_succ, List.getD_cons_zero, List.getD_cons_succ]
  · norm_num [get_top_similar_tickets, adjustedSims, vzDemo, cosOne, adjustAll, adjustOne,
      h1, h2, doc1, doc2, sortedIdx, argsortAsc, insertAsc, collectLoop, buildResult, min_def,
      List.range_succ, List.getD_cons_zero, List.getD_cons_succ]

/-- C4: the query is a pure function of (index, query, top_k, threshold):
the state-passing form returns the index unchanged, and a repeated call on
the returned state produces the identical result list. -/
theorem c4_pure_deterministic (vz : TicketVectorizer) (cos : List Rat → List Rat → Rat)
    (description : String) (top_k : Int) (threshold : Rat) :
    (get_top_similar_tickets_st vz cos description top_k threshold).2 = vz ∧
    (get_top_similar_tickets_st
        (get_top_similar_tickets_st vz cos description top_k threshold).2
        cos description top_k threshold).1 =
      (get_top_similar_tickets_st vz cos description top_k threshold).1 ∧
    (get_top_similar_tickets_st
        (get_top_similar_tickets_st vz cos description top_k threshold).2
        cos description top_k threshold).2 = vz :=
  ⟨rfl, rfl, rfl⟩

/-- C5: raising the threshold never increases the result count: for fixed
state, cosine, query and `top_k`, and thresholds `t1 <= t2`, the result
count at `t2` is at most the count at `t1`. -/
theorem c5_threshold_monotone (vz : TicketVectorizer) (cos : List Rat → List Rat → Rat)
    (description : String) (top_k : Int) (t1 t2 : Rat) (h : t1 ≤ t2) :
    (get_top_similar_tickets vz cos description top_k t2).length ≤
      (get_top_similar_tickets vz cos description top_k t1).length := by
  have hmono : ∀ L : List Nat,
      L.countP (aboveT (adjustedSims vz cos description) t2) ≤
        L.countP (aboveT (adjustedSims vz cos description) t1) := by
    intro L
    apply List.countP_mono_left
    intro i _ hi
    simp only [aboveT, Bool.not_eq_true', decide_eq_false_iff_not] at hi ⊢
    intro hcon
    exact hi (lt_of_lt_of_le hcon h)
  unfold get_top_similar_tickets
  rcases le_or_lt top_k 0 with hk | hk
  · rw [collectLoop_length_nonpos _ _ _ _ hk, collectLoop_length_nonpos _ _ _ _ hk]
    simpa using hmono _
  · have hk1 : (1:Int) ≤ top_k := hk
    rw [collectLoop_length_pos _ _ _ _ hk1 _ _ (by simp; omega),
        collectLoop_length_pos _ _ _ _ hk1 _ _ (by simp; omega)]
    simp only [List.length_nil, Nat.zero_add]
    exact min_le_min (le_refl _) (hmono _)

/-- C5, witness: the monotonicity instance at thresholds 0 <= 1 on the
concrete two-document state. -/
theorem c5_witness :
    (0:Rat) ≤ 1 ∧
    (get_top_similar_tickets vzDemo cosOne ("vpn") 3 1).length ≤
      (get_top_similar_tickets vzDemo cosOne ("vpn") 3 0).length :=
  ⟨zero_le_one, c5_threshold_monotone vzDemo cosOne ("vpn") 3 0 1 zero_le_one⟩

end NlpService

namespace NlpService

/-- A second raw row sharing doc1's description exactly (duplicate row). -/
def doc1b : Doc :=
  { ticket_id := 9, description := "VPN connection fails after password reset",
    category := Cell.str ("VPN"), priority := Cell.str ("Low"),
    resolution := "Some other fix" }

/-- A row whose category cell is missing (NaN) in the loaded dataset. -/
def docNan : Doc :=
  { ticket_id := 7, description := "Server issue", category := Cell.nan,
    priority := Cell.nan, resolution := "Reboot server" }

/-- C6: deduplication invariant of the index build.  The deduplicated corpus
has pairwise distinct descriptions, is an order-preserving sublist of the raw
rows, and for any description present in the raw dataset exactly one row
survives, namely the first occurrence (`find?` agrees with the raw order). -/
theorem c6_dedup_invariant (rows : List Doc) (d : String)
    (h : ∃ r ∈ rows, r.description = d) :
    List.Pairwise (fun a b => a.description ≠ b.description) (drop_duplicates rows) ∧
    (drop_duplicates rows).Sublist rows ∧
    (drop_duplicates rows).countP (fun r => r.description == d) = 1 ∧
    (drop_duplicates rows).find? (fun r => r.description == d) =
      rows.find? (fun r => r.description == d) := by
  refine ⟨dropDupGo_pairwise rows [], dropDupGo_sublist rows [], ?_, ?_⟩
  · exact dropDupGo_countP_one rows [] d (by simp) h
  · exact dropDupGo_find? rows [] d (by simp)

/-- C6, witness: a raw dataset with two rows of identical description keeps
exactly the first of them. -/
theorem c6_witness :
    (∃ r ∈ [doc1, doc1b, doc2], r.description = "VPN connection fails after password reset") ∧
    (List.Pairwise (fun a b => a.description ≠ b.description)
        (drop_duplicates [doc1, doc1b, doc2]) ∧
     (drop_duplicates [doc1, doc1b, doc2]).Sublist [doc1, doc1b, doc2] ∧
     (drop_duplicates [doc1, doc1b, doc2]).countP
        (fun r => r.description == "VPN connection fails after password reset") = 1 ∧
     (drop_duplicates [doc1, doc1b, doc2]).find?
        (fun r => r.description == "VPN connection fails after password reset") =
       [doc1, doc1b, doc2].find?
        (fun r => r.description == "VPN connection fails after password reset")) :=
  ⟨by decide,
   c6_dedup_invariant [doc1, doc1b, doc2]
     ("VPN connection fails after password reset") (by decide)⟩

/-- Bounds on the adjusted similarity vector, given that the cosine values
lie in [0, 1] (which holds for cosine similarity of nonnegative TF-IDF
vectors). -/
theorem adjustedSims_bounds (vz : TicketVectorizer) (cos : List Rat → List Rat → Rat)
    (description : String) (hcos : ∀ v w, 0 ≤ cos v w ∧ cos v w ≤ 1) (i : Nat) :
    0 ≤ (adjustedSims vz cos description).getD i 0 ∧
      (adjustedSims vz cos description).getD i 0 ≤ 1 := by
  unfold adjustedSims
  rw [adjustAll_getD]
  by_cases h : i < vz.df.length ∧
      i < (vz.tfidf_matrix.map (fun row => cos (transform_query vz description) row)).length
  · rw [if_pos h]
    have hm : i < vz.tfidf_matrix.length := by
      have h2 := h.2
      simpa using h2
    rw [map_cos_getD _ _ _ _ hm]
    constructor
    · exact adjustOne_nonneg _ _ _ (hcos _ _).1
    · exact adjustOne_le_one _ _ _ (hcos _ _).1 (hcos _ _).2
  · rw [if_neg h]
    norm_num

/-- C9: every returned similarity score lies in [0, 1] and equals the
4-decimal rounding of the unrounded adjusted score of its document, and the
threshold test was performed on that unrounded adjusted score.  The
hypothesis states the property of the external cosine (values in [0, 1] on
nonnegative vectors). -/
theorem c9_score_range_rounding (vz : TicketVectorizer) (cos : List Rat → List Rat → Rat)
    (description : String) (top_k : Int) (threshold : Rat)
    (hcos : ∀ v w, 0 ≤ cos v w ∧ cos v w ≤ 1) :
    ∀ r ∈ get_top_similar_tickets vz cos description top_k threshold,
      0 ≤ r.similarity_score ∧ r.similarity_score ≤ 1 ∧
      ∃ i, ¬ ((adjustedSims vz cos description).getD i 0 < threshold) ∧
        r.similarity_score = round4 ((adjustedSims vz cos description).getD i 0) := by
  intro r hr
  unfold get_top_similar_tickets at hr
  rcases collectLoop_mem _ _ _ _ _ _ _ hr with h | h
  · simp at h
  · rcases h with ⟨i, hi, hr2⟩
    have hb := adjustedSims_bounds vz cos description hcos i
    have hscore : r.similarity_score = round4 ((adjustedSims vz cos description).getD i 0) := by
      rw [hr2]
      rfl
    refine ⟨?_, ?_, i, hi, hscore⟩
    · rw [hscore]
      exact round4_nonneg _ hb.1
    · rw [hscore]
      exact round4_le_one _ hb.2

/-- C9, witness: the score range and rounding at the concrete two-document
state with a cosine returning 1 for every document. -/
theorem c9_witness :
    (∀ v w : List Rat, 0 ≤ cosOne v w ∧ cosOne v w ≤ 1) ∧
    ∀ r ∈ get_top_similar_tickets vzDemo cosOne ("vpn") 3 (1/10),
      0 ≤ r.similarity_score ∧ r.similarity_score ≤ 1 ∧
      ∃ i, ¬ ((adjustedSims vzDemo cosOne ("vpn")).getD i 0 < (1/10:Rat)) ∧
        r.similarity_score = round4 ((adjustedSims vzDemo cosOne ("vpn")).getD i 0) :=
  ⟨fun _ _ => ⟨zero_le_one, le_refl 1⟩,
   c9_score_range_rounding vzDemo cosOne ("vpn") 3 (1/10)
     (fun _ _ => ⟨zero_le_one, le_refl 1⟩)⟩

/-- For a NaN category cell, the boost condition reduces to the substring
test for the literal string "nan". -/
theorem catMatches_nan (ql : String) :
    catMatches ql Cell.nan = decide (("nan").toList <:+: ql.toList) := by
  unfold catMatches
  have h1 : strLower (pandasStr Cell.nan) = "nan" := by decide
  rw [h1]
  have h2 : (!(("nan":String) == "")) = true := by decide
  rw [h2, Bool.true_and]

/-- C10: a document whose category cell is NaN is treated as having the
literal category string "nan" during adjustment — it is boosted exactly when
"nan" occurs as a substring of the lowercased query and penalized by 0.90
otherwise — and its category is returned as the string "nan" in the result
record. -/
theorem c10_nan_category (df : List Doc) (sims : List Rat) (description : String) (i : Nat)
    (h : (df.getD i default).category = Cell.nan) :
    adjustOne (strLower description) ((df.getD i default).category) (sims.getD i 0) =
      (if ("nan").toList <:+: (strLower description).toList
       then min ((sims.getD i 0) * (5/4)) 1 else (sims.getD i 0) * (9/10)) ∧
    (buildResult df sims i).category = "nan" := by
  constructor
  · rw [h]
    unfold adjustOne
    rw [catMatches_nan]
    by_cases hin : ("nan").toList <:+: (strLower description).toList
    · rw [decide_eq_true hin, if_pos rfl, if_pos hin]
    · rw [decide_eq_false hin, if_neg (by simp), if_neg hin]
  · show pandasStr (df.getD i default).category = "nan"
    rw [h]
    rfl

/-- C10, witness: a concrete NaN-category row with the query
"nan error on server", whose lowercased form contains "nan". -/
theorem c10_witness :
    ([docNan].getD 0 default).category = Cell.nan ∧
    (adjustOne (strLower ("nan error on server")) (([docNan].getD 0 default).category)
        ([(1:Rat)/2].getD 0 0) =
      (if ("nan").toList <:+: (strLower ("nan error on server")).toList
       then min (([(1:Rat)/2].getD 0 0) * (5/4)) 1 else ([(1:Rat)/2].getD 0 0) * (9/10)) ∧
     (buildResult [docNan] [(1:Rat)/2] 0).category = "nan") :=
  ⟨by decide,
   c10_nan_category [docNan] [(1:Rat)/2] ("nan error on server") 0 (by decide)⟩

end NlpService

namespace NlpService

/-- The boost condition holds exactly when the lowercased category string is
non-empty and occurs as a substring of the lowercased query. -/
theorem catMatches_iff (ql : String) (cat : Cell) :
    catMatches ql cat = true ↔
      (strLower (pandasStr cat) ≠ "" ∧
        (strLower (pandasStr cat)).toList <:+: ql.toList) := by
  unfold catMatches
  simp only [Bool.and_eq_true, Bool.not_eq_true', beq_eq_false_iff_ne, ne_eq,
    decide_eq_true_eq]

/-- C3, counterexample: the claim compares the raw category string against
the lowercased query, but the code lowercases the category first
(line 134).  For the document with category "VPN" and the query
"VPN login failing with error code 809": the raw string "VPN" is not a
substring of the lowercased query, so the claim as stated prescribes the
0.90 penalty (adjusted score 0.9); the code instead lowercases the category
to "vpn", finds it in the query, and boosts the score to 1. -/
theorem c3_counterexample :
    ¬ (("VPN").toList <:+:
        (strLower ("VPN login failing with error code 809")).toList) ∧
    (adjustAll [doc1] [1] (strLower ("VPN login failing with error code 809"))).getD 0 0 = 1 ∧
    (adjustAll [doc1] [1] (strLower ("VPN login failing with error code 809"))).getD 0 0 ≠
      1 * ((9:Rat)/10) := by
  have h1 : catMatches (strLower ("VPN login failing with error code 809"))
      (Cell.str ("VPN")) = true := by decide
  refine ⟨by decide, ?_, ?_⟩
  · norm_num [adjustAll, adjustOne, h1, doc1, min_def]
  · norm_num [adjustAll, adjustOne, h1, doc1, min_def]

/-- C3, amended claim: for every document index of the corpus and every
query, the adjustment runs unconditionally and depends on the document's
category string converted to lowercase: if that lowercased category is
non-empty and occurs as a substring of the lowercased raw query description,
the document's score is multiplied by 1.25 and capped at 1.0; otherwise
(including documents with empty category) it is multiplied by 0.90. -/
theorem c3_adjustment_rule_amended (df : List Doc) (sims : List Rat) (description : String)
    (i : Nat) (h1 : i < df.length) (h2 : i < sims.length) :
    (adjustAll df sims (strLower description)).getD i 0 =
      if (strLower (pandasStr ((df.getD i default).category)) ≠ "") ∧
         (strLower (pandasStr ((df.getD i default).category))).toList <:+:
           (strLower description).toList
      then min ((sims.getD i 0) * (5/4)) 1
      else (sims.getD i 0) * (9/10) := by
  rw [adjustAll_getD, if_pos ⟨h1, h2⟩]
  unfold adjustOne
  by_cases hc : (strLower (pandasStr ((df.getD i default).category)) ≠ "") ∧
      (strLower (pandasStr ((df.getD i default).category))).toList <:+:
        (strLower description).toList
  · rw [if_pos ((catMatches_iff _ _).mpr hc), if_pos hc]
  · rw [if_neg (fun hcon => hc ((catMatches_iff _ _).mp hcon)), if_neg hc]

/-- C3, witness: the amended rule instantiated at the "VPN" document and the
query "VPN login failing with error code 809" (the boost branch fires). -/
theorem c3_witness :
    0 < [doc1].length ∧ 0 < [(1:Rat)].length ∧
    (adjustAll [doc1] [(1:Rat)] (strLower ("VPN login failing with error code 809"))).getD 0 0 =
      if (strLower (pandasStr (([doc1].getD 0 default).category)) ≠ "") ∧
         (strLower (pandasStr (([doc1].getD 0 default).category))).toList <:+:
           (strLower ("VPN login failing with error code 809")).toList
      then min (([(1:Rat)].getD 0 0) * (5/4)) 1
      else ([(1:Rat)].getD 0 0) * (9/10) :=
  ⟨by decide, by decide,
   c3_adjustment_rule_amended [doc1] [(1:Rat)]
     ("VPN login failing with error code 809") 0 (by decide) (by decide)⟩

/-- A query sharing no term with the fitted vocabulary projects to the zero
vector. -/
theorem transform_query_zero (vz : TicketVectorizer) (description : String)
    (hvoc : ∀ g ∈ vz.vocab, (termsOf description).count g = 0) :
    ∀ x ∈ transform_query vz description, x = 0 := by
  intro x hx
  unfold transform_query at hx
  rcases List.mem_map.mp hx with ⟨p, hp, hpx⟩
  obtain ⟨a, b⟩ := p
  have h1 : a ∈ vz.vocab := (List.of_mem_zip hp).1
  rw [← hpx]
  have h2 := hvoc a h1
  simp [h2]

/-- C7: no error conditions at the algorithmic level — the query function is
total, and a query with no vocabulary overlap yields all-zero raw cosine
similarity (the cosine of a zero vector is zero, a property of the external
cosine stated as a hypothesis), hence all-zero adjusted scores and an empty
result list for every threshold > 0. -/
theorem c7_no_overlap_empty (vz : TicketVectorizer) (cos : List Rat → List Rat → Rat)
    (description : String) (top_k : Int) (threshold : Rat)
    (ht : 0 < threshold)
    (hcos : ∀ v w, (∀ x ∈ v, x = 0) → cos v w = 0)
    (hvoc : ∀ g ∈ vz.vocab, (termsOf description).count g = 0) :
    get_top_similar_tickets vz cos description top_k threshold = [] := by
  have hq := transform_query_zero vz description hvoc
  have hraw : ∀ x ∈ vz.tfidf_matrix.map
      (fun row => cos (transform_query vz description) row), x = 0 := by
    intro x hx
    rcases List.mem_map.mp hx with ⟨row, _, hrx⟩
    rw [← hrx]
    exact hcos _ row hq
  have hS : ∀ i : Nat, (adjustedSims vz cos description).getD i 0 = 0 := by
    intro i
    unfold adjustedSims
    rw [adjustAll_getD]
    by_cases h : i < vz.df.length ∧
        i < (vz.tfidf_matrix.map (fun row => cos (transform_query vz description) row)).length
    · rw [if_pos h]
      rw [getD_zero_of_all _ hraw i]
      exact adjustOne_zero _ _
    · rw [if_neg h]
  unfold get_top_similar_tickets
  apply collectLoop_all_below
  intro i _
  rw [hS i]
  exact ht

/-- C7, witness: the stop-word-only query "is a it of to" cleans to the
empty string, shares no term with the vocabulary, and yields the empty
result list at the default threshold 0.10. -/
theorem c7_witness :
    (0:Rat) < 1/10 ∧
    (∀ v w : List Rat, (∀ x ∈ v, x = 0) → cosZero v w = 0) ∧
    (∀ g ∈ vzDemo.vocab, (termsOf ("is a it of to")).count g = 0) ∧
    get_top_similar_tickets vzDemo cosZero ("is a it of to") 3 (1/10) = [] :=
  ⟨by simp, fun _ _ _ => rfl, by decide,
   c7_no_overlap_empty vzDemo cosZero ("is a it of to") 3 (1/10)
     (by simp) (fun _ _ _ => rfl) (by decide)⟩

/-- C8, counterexample: normalization is not idempotent.  WordNet
lemmatizes "oxen" to "ox", so `_clean_text "oxen" = "ox"`; a second pass
drops "ox" (length 2 or less) and returns the empty string. -/
theorem c8_counterexample :
    ¬ (_clean_text (_clean_text ("oxen")) = _clean_text ("oxen")) := by decide

/-- C8, amended claim: normalization is idempotent on every string whose
normalized form's tokens all survive the filters and are fixed by
lemmatization — that is, when each output token is non-empty lower-case
text, is not a stop-word, has length > 2, and is its own lemma.  In general
a second pass can drop an output token whose lemma is a stop-word (for
example "cans" lemmatizes to the stop-word "can") or shorter than 3
characters ("oxen" lemmatizes to "ox"), so unrestricted idempotence fails. -/
theorem c8_idempotent_amended (s : String)
    (H : ∀ w ∈ cleanedTokens s, w ≠ [] ∧ (∀ c ∈ w, isLowerAlpha c = true) ∧
          keepToken w = true ∧ _lemmatize w = w) :
    _clean_text (_clean_text s) = _clean_text s := by
  have hchar : ∀ c ∈ joinTokens (cleanedTokens s), c = ' ' ∨ ∃ w ∈ cleanedTokens s, c ∈ w :=
    fun c hc => joinTokens_mem _ c hc
  have hlower : lowerChars (joinTokens (cleanedTokens s)) = joinTokens (cleanedTokens s) := by
    apply map_self_of
    intro c hc
    rcases hchar c hc with h | ⟨w, hw, hcw⟩
    · rw [h]; exact lowerChar_space
    · exact lowerChar_of_lower c (((H w hw).2.1) c hcw)
  have hstrip : stripChars (joinTokens (cleanedTokens s)) = joinTokens (cleanedTokens s) := by
    apply List.filter_eq_self.mpr
    intro c hc
    rcases hchar c hc with h | ⟨w, hw, hcw⟩
    · rw [h]; decide
    · rw [isAlpha_of_lower c (((H w hw).2.1) c hcw)]
      simp
  have hsplit : splitWS (joinTokens (cleanedTokens s)) = cleanedTokens s := by
    apply splitWS_joinTokens
    intro w hw
    exact ⟨(H w hw).1, fun c hc => not_ws_of_lower c (((H w hw).2.1) c hc)⟩
  have hfilter : (cleanedTokens s).filter keepToken = cleanedTokens s := by
    apply List.filter_eq_self.mpr
    intro w hw
    exact (H w hw).2.2.1
  have hmap : (cleanedTokens s).map _lemmatize = cleanedTokens s := by
    apply map_self_of
    intro w hw
    exact (H w hw).2.2.2
  have hkey : _clean_text_chars (joinTokens (cleanedTokens s)) = joinTokens (cleanedTokens s) := by
    unfold _clean_text_chars
    rw [show lowerChars (joinTokens (cleanedTokens s)) =
          joinTokens (cleanedTokens s) from hlower]
    rw [hstrip, hsplit, hfilter, hmap]
  show String.mk (_clean_text_chars (_clean_text s).toList) = _clean_text s
  have ht : (_clean_text s).toList = joinTokens (cleanedTokens s) := rfl
  rw [ht, hkey]
  rfl

/-- C8, witness: the already-idempotent input "Reset the printer firmware"
(every cleaned token survives the filters and is lemma-fixed). -/
theorem c8_witness :
    (∀ w ∈ cleanedTokens ("Reset the printer firmware"),
        w ≠ [] ∧ (∀ c ∈ w, isLowerAlpha c = true) ∧
          keepToken w = true ∧ _lemmatize w = w) ∧
    _clean_text (_clean_text ("Reset the printer firmware")) =
      _clean_text ("Reset the printer firmware") :=
  ⟨by decide, c8_idempotent_amended ("Reset the printer firmware") (by decide)⟩

end NlpService
